import Mathlib

/-!
Shallow embedding of the live-editor preview engine (src/script.js).

The project store is the module-level object `files` (an insertion-ordered
mapping from file name to file record) together with the string `activeFile`.
JavaScript objects with non-integer string keys preserve insertion order, so
the mapping is embedded as a `List File` in insertion order, with the
invariant (true of every mutation in the source) that the key under which a
record is stored equals its `name` field and that names are unique.

Store operations (`deleteFile`, `renameFile`) mutate the globals and signal
failures through `toast(msg, "error")` calls followed by an early return; the
embedding returns the post-call values of the globals plus an optional error
marker corresponding to the toast.  `confirm`/`prompt` interaction is modelled
by taking the user-supplied answer as an argument on the confirmed path, and
the model describes the post-initialization state in which the editor widget
exists (so `switchFile` does update `activeFile`).
-/

structure File where
  name : String
  language : String
  content : String
deriving DecidableEq, Repr

/-- Error markers for the store's `toast(..., "error")` rejection paths. -/
inductive StoreError where
  | lastFileError
  | duplicateNameError
  | typeError
deriving DecidableEq, Repr

/-- Result of a store mutation: the new `files` mapping, the new `activeFile`,
and the error reported by `toast` when the operation was rejected. -/
structure StoreOutcome where
  files : List File
  active : String
  error : Option StoreError
deriving DecidableEq, Repr

/-- JavaScript `s.endsWith(sfx)`: the characters of `sfx` are a suffix of the
characters of `s`. -/
def jsEndsWith (s sfx : String) : Bool :=
  sfx.data.isSuffixOf s.data

/-- JavaScript `s.split('.')`: the character segments between the dots, at
least one segment, with empty segments kept (so `''` splits to `['']` and a
trailing dot yields a trailing empty segment, exactly as in JavaScript). -/
def splitDot : List Char → List (List Char)
  | [] => [[]]
  | c :: rest =>
    if c = '.' then [] :: splitDot rest
    else
      match splitDot rest with
      | [] => [[c]]
      | seg :: segs => (c :: seg) :: segs

/-- JavaScript `s.toLowerCase()` on the characters. -/
def jsLower (s : String) : String :=
  String.mk (s.data.map Char.toLower)

/-- Embeds `getLanguageForFile` (src/script.js lines 477-485):
`name.split('.').pop().toLowerCase()` — the last dot-separated segment,
lowercased — then a chain of extension checks. -/
def getLanguageForFile (name : String) : String :=
  let ext := jsLower (String.mk ((splitDot name.data).getLastD []))
  if ext == "js" then "javascript"
  else if ext == "css" then "css"
  else if ext == "html" then "html"
  else if ext == "json" then "json"
  else if ext == "md" then "markdown"
  else "plaintext"

/-- Embeds `deleteFile` (src/script.js lines 156-168) on the confirmed path:
rejects when `Object.keys(files).length <= 1`; otherwise removes the key and,
when the deleted file was active, calls `switchFile(Object.keys(files)[0])`,
which sets `activeFile` to the first remaining key in insertion order. -/
def deleteFile (fs : List File) (active : String) (name : String) : StoreOutcome :=
  if fs.length ≤ 1 then ⟨fs, active, some .lastFileError⟩
  else
    let remaining := fs.filter (fun f => f.name != name)
    if active == name then
      ⟨remaining, (remaining.headD ⟨"", "", ""⟩).name, none⟩
    else
      ⟨remaining, active, none⟩

/-- Embeds `renameFile` (src/script.js lines 123-138) with the prompt answer
`newName` supplied as an argument: a null/empty answer or an answer equal to
the current name returns silently; an existing target name is rejected with
the duplicate toast; otherwise the entry is removed and re-inserted at the end
under `newName` with language re-derived, and `activeFile` follows when it was
the renamed file.  Renaming an absent `name` dereferences `undefined` in the
source (TypeError) before any state change, modelled by the `typeError`
marker with the state left as it was. -/
def renameFile (fs : List File) (active : String) (name newName : String) : StoreOutcome :=
  if newName == "" || newName == name then ⟨fs, active, none⟩
  else if (fs.find? (fun f => f.name == newName)).isSome then
    ⟨fs, active, some .duplicateNameError⟩
  else
    match fs.find? (fun f => f.name == name) with
    | none => ⟨fs, active, some .typeError⟩
    | some f =>
        ⟨fs.filter (fun g => g.name != name) ++
           [{ f with name := newName, language := getLanguageForFile newName }],
         if active == name then newName else active, none⟩

/-- Embeds the per-file delete control of `renderExplorer` (src/script.js
lines 214-217): the delete button is rendered only when
`file.name !== 'index.html'`. -/
def deleteButtonShown (name : String) : Bool :=
  name != "index.html"

/-!
Document Composer: `updatePreview` (src/script.js lines 250-315).  The
function reads the globals `files` and `appSettings.cdns`, assembles the
preview document string `source` from them, and assigns it to the preview
frame; when no entry file is found (`if (!htmlFile) return;`) it returns
before assembling anything.  The embedding returns the assigned document as
`some source`, and `none` on the early return.  Literal braces from the
JavaScript template are written with their character codes, and apostrophes
likewise, so the strings below spell the template byte for byte.
-/

/-- Embeds the per-file wrapper accumulated into `jsContent` (src/script.js
lines 260-264): each `.js` file's content is placed inside its own
try/catch whose handler is `console.error(e)`. -/
def wrapJs (content : String) : String :=
  "\n            try \x7b\n                " ++ content ++
    "\n            \x7d catch(e) \x7b console.error(e); \x7d\n        \n"

/-- Embeds the single `Object.values(files).forEach` pass (src/script.js
lines 258-265) that accumulates `cssContent` and `jsContent`: files whose
name ends in `.css` append their content plus a newline to the first
component, files whose name ends in `.js` append their wrapped content to the
second. -/
def collectStep (acc : String × String) (f : File) : String × String :=
  (if jsEndsWith f.name ".css" then acc.1 ++ (f.content ++ "\n") else acc.1,
   if jsEndsWith f.name ".js" then acc.2 ++ wrapJs f.content else acc.2)

/-- The forEach pass as a fold over the files in insertion order, starting
from the two empty accumulators declared just before it. -/
def collectContents (fs : List File) : String × String :=
  fs.foldl collectStep ("", "")

/-- Files the forEach pass treats as css, in insertion order. -/
def cssFiles (fs : List File) : List File :=
  fs.filter (fun f => jsEndsWith f.name ".css")

/-- Files the forEach pass treats as javascript, in insertion order. -/
def jsFiles (fs : List File) : List File :=
  fs.filter (fun f => jsEndsWith f.name ".js")

/-- Embeds one element of the `cdnTags` map (src/script.js lines 268-271):
a URL ending in `.css` becomes a stylesheet link, anything else a script
tag. -/
def cdnTag (url : String) : String :=
  if jsEndsWith url ".css" then
    "<link rel=\"stylesheet\" href=\"" ++ url ++ "\">"
  else
    "<script src=\"" ++ url ++ "\"></script>"

/-- Embeds `appSettings.cdns.map(...).join('\n')`. -/
def cdnTagsOf (cdns : List String) : String :=
  String.intercalate "\n" (cdns.map cdnTag)

/-- The `source` template from its opening backtick up to the `cdnTags`
interpolation point. -/
def docOpening : String :=
  "\n    <!DOCTYPE html>\n    <html lang=\"en\">\n    <head>\n        <meta charset=\"UTF-8\">\n        <meta name=\"viewport\" content=\"width=device-width, initial-scale=1.0\">\n        "

/-- The `source` template between the `cdnTags` and `cssContent`
interpolation points. -/
def docBeforeCss : String :=
  "\n        <style>\n            "

/-- The `source` template between the `cssContent` interpolation point and
the entry file's content: closing style tag, the console-proxy script
injected into the head, and the opening of the body. -/
def docAfterCss : String :=
  "\n        </style>\n        <script>\n            // Console Proxy\n            (function()\x7b\n                const _log = console.log;\n                const _warn = console.warn;\n                const _error = console.error;\n                \n                console.log = function(...args) \x7b \n                    window.parent.postMessage(\x7btype:\x27console\x27, level:\x27log\x27, args\x7d, \x27*\x27); \n                    _log.apply(console, args);\n                \x7d;\n                console.warn = function(...args) \x7b \n                    window.parent.postMessage(\x7btype:\x27console\x27, level:\x27warn\x27, args\x7d, \x27*\x27); \n                    _warn.apply(console, args);\n                \x7d;\n                console.error = function(...args) \x7b \n                    window.parent.postMessage(\x7btype:\x27console\x27, level:\x27error\x27, args\x7d, \x27*\x27); \n                    _error.apply(console, args);\n                \x7d;\n            \x7d)();\n        </script>\n    </head>\n    <body>\n        "

/-- The `source` template between the entry file's content and the
`jsContent` interpolation point. -/
def docBeforeJs : String :=
  "\n        <script>\n            "

/-- The `source` template after the `jsContent` interpolation point. -/
def docClosing : String :=
  "\n        </script>\n    </body>\n    </html>\n    "

/-- The assembled `source` string for a given entry file. -/
def assembleDoc (htmlFile : File) (fs : List File) (cdns : List String) : String :=
  docOpening ++ cdnTagsOf cdns ++ docBeforeCss ++ (collectContents fs).1 ++
    docAfterCss ++ htmlFile.content ++ docBeforeJs ++ (collectContents fs).2 ++
    docClosing

/-- Embeds `updatePreview` (src/script.js lines 250-315): the entry file is
`files['index.html']` when that key exists, else the first file (insertion
order) whose name ends in `.html`; with no entry file the function returns
without producing a document, otherwise it assembles and emits `source`. -/
def updatePreview (fs : List File) (cdns : List String) : Option String :=
  match (fs.find? (fun f => f.name == "index.html")).orElse
      (fun _ => fs.find? (fun f => jsEndsWith f.name ".html")) with
  | none => none
  | some htmlFile => some (assembleDoc htmlFile fs cdns)

/-!
Execution model for the composed script block.  The body of the preview
document runs `try \x7b c1 \x7d catch(e) \x7b console.error(e); \x7d` for each
javascript file's content c1, c2, ... in sequence inside one script element.
The engine's behaviour on a single file's top-level code is abstracted as the
telemetry events it emits followed by either normal completion or a thrown
value; the sequencing and the catch handler below are the semantics of the
emitted try/catch text itself: a caught throw runs `console.error(e)`, which
relays one error-level telemetry event, and control falls through to the next
wrapped block.
-/

/-- A telemetry event relayed by the console proxy. -/
inductive JsEvent where
  | log (args : List String)
  | warn (args : List String)
  | error (args : List String)
deriving DecidableEq, Repr

/-- Abstract result of executing one file's top-level code: the telemetry it
emitted, and the thrown value when execution ended in an uncaught throw. -/
structure FileBehavior where
  events : List JsEvent
  thrown : Option String
deriving DecidableEq, Repr

/-- Semantics of one wrapped block `try ... catch(e) \x7b console.error(e); \x7d`
under engine behaviour `beh`: a throw is caught and reported as one
error-level event, after which the block completes normally. -/
def runWrapped (beh : String → FileBehavior) (c : String) : List JsEvent :=
  match (beh c).thrown with
  | none => (beh c).events
  | some msg => (beh c).events ++ [JsEvent.error [msg]]

/-- Semantics of the whole composed script block: the wrapped blocks run in
sequence, each completing normally, so every block executes. -/
def runScriptBlock (beh : String → FileBehavior) : List String → List JsEvent
  | [] => []
  | c :: rest => runWrapped beh c ++ runScriptBlock beh rest

/-!
Debounced Rebuild Scheduler.  `debouncedUpdatePreview` (src/script.js lines
347-351) clears any pending timer and arms a new one that fires
`updatePreview` after 1000 ms; the command `run:preview` (line 501) calls
`updatePreview()` directly, without touching `debounceTimer`.  The model
processes a time-ordered list of events against the pending deadline: a
pending deadline at or before the next event's time has already fired when
that event is handled, a `notify` replaces the pending deadline with
time + quietPeriod, a `force` fires a rebuild at its own time and leaves the
pending deadline as the source leaves it (untouched), and a deadline still
pending when the event list ends fires then.  The returned list is every
rebuild's firing time in order.
-/

/-- The quiet period of `debouncedUpdatePreview`: `setTimeout(updatePreview, 1000)`. -/
def quietPeriod : Nat := 1000

/-- An input to the scheduler at a given time: a content-change notification
(`debouncedUpdatePreview`) or a manual refresh (`run:preview`, which calls
`updatePreview` directly). -/
inductive SchedEvent where
  | notify (t : Nat)
  | force (t : Nat)
deriving DecidableEq, Repr

/-- Rebuild firing times produced from a pending deadline and a time-ordered
event list. -/
def runSched : Option Nat → List SchedEvent → List Nat
  | some d, [] => [d]
  | none, [] => []
  | some d, SchedEvent.notify t :: rest =>
      if d ≤ t then d :: runSched (some (t + quietPeriod)) rest
      else runSched (some (t + quietPeriod)) rest
  | none, SchedEvent.notify t :: rest => runSched (some (t + quietPeriod)) rest
  | some d, SchedEvent.force t :: rest =>
      if d ≤ t then d :: t :: runSched none rest
      else t :: runSched (some d) rest
  | none, SchedEvent.force t :: rest => t :: runSched none rest

/-- Last element of a notify-time list, 0 for the empty list. -/
def lastTime : List Nat → Nat
  | [] => 0
  | [t] => t
  | _ :: rest => lastTime rest

/-!
Host side of the telemetry relay: the `message` listener (src/script.js lines
365-374) appends `"> " + e.data.args.join(' ')` to the console output for
every received message whose `type` is `console`, reading nothing else from
the message.  The source keeps no render counter and the relayed envelope
`\x7btype, level, args\x7d` posted by the console proxy carries no generation
field; the `generation` component below is specification-side ghost state
that counts `updatePreview` renders, and the `originGen` label on a relayed
message records which render emitted it, so that staleness is expressible.
The handler's decision depends only on the fields the code reads.
-/

/-- The relayed message envelope posted by the console proxy:
`\x7btype:'console', level, args\x7d`. -/
structure PreviewMessage where
  msgType : String
  level : String
  args : List String
deriving DecidableEq, Repr

/-- A host-visible occurrence: a new render (an `updatePreview` call that set
the preview frame's document), or the arrival of a relayed message emitted by
render number `originGen`. -/
inductive HostEvent where
  | render
  | relay (originGen : Nat) (m : PreviewMessage)
deriving DecidableEq, Repr

/-- Host state: the ghost render counter and the console output lines. -/
structure HostState where
  generation : Nat
  consoleLines : List String
deriving DecidableEq, Repr

/-- One step of the host: a render bumps the ghost counter; a relayed message
is handled exactly as the `message` listener does, appending the formatted
line whenever `type` is `console`, with no staleness check. -/
def hostStep (s : HostState) (e : HostEvent) : HostState :=
  match e with
  | HostEvent.render => { s with generation := s.generation + 1 }
  | HostEvent.relay _ m =>
      if m.msgType == "console" then
        { s with consoleLines := s.consoleLines ++ ["> " ++ String.intercalate " " m.args] }
      else s

/-- The host processing a sequence of occurrences in order. -/
def hostRun (s : HostState) (es : List HostEvent) : HostState :=
  es.foldl hostStep s

/-- Concatenation of a list of strings, left to right. -/
def joinAll : List String → String
  | [] => ""
  | s :: rest => s ++ joinAll rest

/-- The default project's entry file (src/script.js lines 5-9). -/
def demoIndex : File := ⟨"index.html", "html", "<h1>Hello World</h1>"⟩

/-- A small stylesheet file, as in the spec's build scenario. -/
def demoCss : File := ⟨"style.css", "css", "h1\x7bcolor:red\x7d"⟩

/-- A small script file, as in the spec's build scenario. -/
def demoJs : File := ⟨"script.js", "javascript", "console.log(\x27a\x27)"⟩

/-- A three-file project shaped like the default project. -/
def demoProject : List File := [demoIndex, demoCss, demoJs]

/-- A javascript file named as in the spec's rename scenario. -/
def demoUtil : File := ⟨"util.js", "javascript", "let x = 1"⟩

/-- A two-file project for the rename scenario. -/
def demoProject2 : List File := [demoIndex, demoUtil]

/-- An engine behaviour under which the demo script's content throws. -/
def behDemo (c : String) : FileBehavior :=
  if c == "console.log(\x27a\x27)" then ⟨[], some "TypeError"⟩ else ⟨[], none⟩

/-!
Helper lemmas shared by the claim theorems.
-/

/-- The default-selected head of a nonempty list is one of its members. -/
theorem headD_name_mem (l : List File) (d : File) (h : l ≠ []) :
    (l.headD d).name ∈ l.map File.name := by
  cases l with
  | nil => exact absurd rfl h
  | cons a t => simp

/-- With at least two files and pairwise distinct names, removing the entries
named `active` cannot empty the mapping. -/
theorem filter_ne_nil_of_two_nodup (fs : List File) (active : String)
    (h2 : 2 ≤ fs.length) (hnd : (fs.map File.name).Nodup) :
    fs.filter (fun f => f.name != active) ≠ [] := by
  intro hfil
  have hall : ∀ f ∈ fs, f.name = active := by
    intro f hf
    have h := List.filter_eq_nil_iff.mp hfil f hf
    simpa using h
  cases fs with
  | nil => simp at h2
  | cons a t =>
    cases t with
    | nil => simp at h2
    | cons b t2 =>
      have ha := hall a (by simp)
      have hb := hall b (by simp)
      rw [List.map_cons, List.map_cons, List.nodup_cons] at hnd
      exact hnd.1 (by simp [ha, hb])

/-- A predicate finding nothing in a list finds nothing in any filtering of
it. -/
theorem find?_filter_of_none {fs : List File} {p q : File → Bool}
    (h : fs.find? p = none) : (fs.filter q).find? p = none := by
  rw [List.find?_eq_none] at h ⊢
  intro x hx
  exact h x (List.mem_filter.mp hx).1

/-- After filtering away the entries named `n`, no entry named `n` is found. -/
theorem find?_filter_ne (fs : List File) (n : String) :
    (fs.filter (fun f => f.name != n)).find? (fun f => f.name == n) = none := by
  rw [List.find?_eq_none]
  intro x hx
  have hq := (List.mem_filter.mp hx).2
  simp at hq
  simp [hq]

/-!
Claim theorems.
-/

/-- C1: deleting the sole remaining file is rejected with the last-file error
and leaves `files` and `activeFile` unchanged; with at least two files,
deleting the currently active file succeeds and moves `activeFile` to the
first remaining file in insertion order, which is an existing file. -/
theorem deleteFile_lastFile_and_active_moves (fs : List File) (active name : String) :
    (fs.length = 1 →
      deleteFile fs active name = ⟨fs, active, some StoreError.lastFileError⟩) ∧
    (2 ≤ fs.length → (fs.map File.name).Nodup → active ∈ fs.map File.name →
      (deleteFile fs active active).error = none ∧
      (deleteFile fs active active).files = fs.filter (fun f => f.name != active) ∧
      (deleteFile fs active active).active
        = ((fs.filter (fun f => f.name != active)).headD ⟨"", "", ""⟩).name ∧
      (deleteFile fs active active).active
        ∈ (deleteFile fs active active).files.map File.name) := by
  constructor
  · intro h1
    simp [deleteFile, h1]
  · intro h2 hnd _hmem
    have hlen : ¬ fs.length ≤ 1 := by omega
    have hne := filter_ne_nil_of_two_nodup fs active h2 hnd
    simp only [deleteFile, if_neg hlen, beq_self_eq_true, if_true]
    exact ⟨trivial, trivial, trivial, headD_name_mem _ _ hne⟩

/-- Witness for C1 on concrete projects: a single-file project rejects the
delete, and in the default three-file project deleting the active entry file
moves `activeFile` to the first remaining file. -/
theorem deleteFile_lastFile_and_active_moves_witness :
    (deleteFile [demoIndex] "index.html" "index.html"
      = ⟨[demoIndex], "index.html", some StoreError.lastFileError⟩) ∧
    ((deleteFile demoProject "index.html" "index.html").error = none ∧
     (deleteFile demoProject "index.html" "index.html").files
       = demoProject.filter (fun f => f.name != "index.html") ∧
     (deleteFile demoProject "index.html" "index.html").active
       = ((demoProject.filter (fun f => f.name != "index.html")).headD ⟨"", "", ""⟩).name ∧
     (deleteFile demoProject "index.html" "index.html").active
       ∈ (deleteFile demoProject "index.html" "index.html").files.map File.name) :=
  ⟨(deleteFile_lastFile_and_active_moves [demoIndex] "index.html" "index.html").1 (by decide),
   (deleteFile_lastFile_and_active_moves demoProject "index.html" "index.html").2
     (by decide) (by decide) (by decide)⟩

/-- C2 counterexample: on the concrete project `[index.html, style.css]`,
`deleteFile` applied to the entry file `index.html` succeeds with no error and
removes it, so the delete operation does not fail with a protected-file error
and does not leave the project unchanged. -/
theorem deleteFile_entry_counterexample :
    deleteFile [demoIndex, demoCss] "style.css" "index.html"
      = ⟨[demoCss], "style.css", none⟩ ∧
    (deleteFile [demoIndex, demoCss] "style.css" "index.html").files
      ≠ [demoIndex, demoCss] ∧
    (deleteFile [demoIndex, demoCss] "style.css" "index.html").error = none := by
  refine ⟨by decide, by decide, by decide⟩

/-- C2 amended: the delete operation itself performs no entry-file check —
whenever at least one other file exists, deleting `index.html` succeeds and
removes it; the only protection in the source is that the explorer UI renders
no delete control for `index.html`. -/
theorem deleteFile_no_entry_protection (fs : List File) (active : String)
    (h2 : 2 ≤ fs.length) :
    (deleteFile fs active "index.html").error = none ∧
    (deleteFile fs active "index.html").files
      = fs.filter (fun f => f.name != "index.html") ∧
    deleteButtonShown "index.html" = false := by
  have hlen : ¬ fs.length ≤ 1 := by omega
  refine ⟨?_, ?_, by decide⟩ <;>
    · simp only [deleteFile, if_neg hlen]
      split <;> rfl

/-- Witness for the amended C2 on a concrete two-file project. -/
theorem deleteFile_no_entry_protection_witness :
    (deleteFile [demoIndex, demoCss] "style.css" "index.html").error = none ∧
    (deleteFile [demoIndex, demoCss] "style.css" "index.html").files
      = [demoIndex, demoCss].filter (fun f => f.name != "index.html") ∧
    deleteButtonShown "index.html" = false :=
  deleteFile_no_entry_protection [demoIndex, demoCss] "style.css" (by decide)

/-- C10: renaming an existing file to its own current name returns silently —
no error at all, in particular not the duplicate-name error — and leaves
`files` and `activeFile` completely unchanged. -/
theorem renameFile_self_silent (fs : List File) (active name : String)
    (_hmem : name ∈ fs.map File.name) :
    renameFile fs active name name = ⟨fs, active, none⟩ := by
  simp [renameFile]

/-- Witness for C10: renaming `script.js` to itself in the default project. -/
theorem renameFile_self_silent_witness :
    renameFile demoProject "index.html" "script.js" "script.js"
      = ⟨demoProject, "index.html", none⟩ :=
  renameFile_self_silent demoProject "index.html" "script.js" (by decide)

/-- C8: renaming an existing file `oldName` to a fresh non-empty `newName`
succeeds, stores under `newName` a record whose language is re-derived from
`newName` alone and whose content is the old content unchanged, removes the
entry under `oldName`, and moves `activeFile` to `newName` exactly when
`oldName` was active; concretely, the derivation maps `util.js` to
`javascript` and `util.ts` to `plaintext`. -/
theorem renameFile_rederives_language (fs : List File) (active oldName newName : String)
    (f : File)
    (hold : fs.find? (fun g => g.name == oldName) = some f)
    (hnew : fs.find? (fun g => g.name == newName) = none)
    (hnonempty : newName ≠ "") :
    (renameFile fs active oldName newName).error = none ∧
    (renameFile fs active oldName newName).files.find? (fun g => g.name == newName)
      = some { f with name := newName, language := getLanguageForFile newName } ∧
    ({ f with name := newName, language := getLanguageForFile newName } : File).content
      = f.content ∧
    (renameFile fs active oldName newName).files.find? (fun g => g.name == oldName)
      = none ∧
    (renameFile fs active oldName newName).active
      = (if active == oldName then newName else active) ∧
    getLanguageForFile "util.js" = "javascript" ∧
    getLanguageForFile "util.ts" = "plaintext" := by
  have hneq : newName ≠ oldName := by
    intro h
    rw [h, hold] at hnew
    exact Option.noConfusion hnew
  have hcond : (newName == "" || newName == oldName) = false := by
    simp [hnonempty, hneq]
  have hdup : (fs.find? (fun g => g.name == newName)).isSome = false := by
    rw [hnew]; rfl
  simp only [renameFile, hcond, Bool.false_eq_true, if_false, hdup, hold]
  refine ⟨trivial, ?_, trivial, ?_, trivial, by decide, by decide⟩
  · rw [List.find?_append, find?_filter_of_none hnew, Option.none_or]
    simp
  · rw [List.find?_append, find?_filter_ne, Option.none_or]
    simp [hneq]

/-- Witness for C8: renaming `util.js` to `util.ts` in a concrete two-file
project succeeds, re-derives the language to `plaintext`, keeps the content,
removes the old entry, and moves the active reference. -/
theorem renameFile_rederives_language_witness :
    (renameFile demoProject2 "util.js" "util.js" "util.ts").error = none ∧
    (renameFile demoProject2 "util.js" "util.js" "util.ts").files.find?
        (fun g => g.name == "util.ts")
      = some { demoUtil with name := "util.ts", language := getLanguageForFile "util.ts" } ∧
    ({ demoUtil with name := "util.ts", language := getLanguageForFile "util.ts" } : File).content
      = demoUtil.content ∧
    (renameFile demoProject2 "util.js" "util.js" "util.ts").files.find?
        (fun g => g.name == "util.js") = none ∧
    (renameFile demoProject2 "util.js" "util.js" "util.ts").active
      = (if ("util.js" == "util.js") = true then "util.ts" else "util.js") ∧
    getLanguageForFile "util.js" = "javascript" ∧
    getLanguageForFile "util.ts" = "plaintext" :=
  renameFile_rederives_language demoProject2 "util.js" "util.js" "util.ts" demoUtil
    (by decide) (by decide) (by decide)

/-- C3 counterexample: with no file named `index.html` and no file whose name
ends in `.html`, `updatePreview` produces no document at all rather than an
empty shell — shown on a css-only snapshot and on a snapshot whose sole file
`page.HTML` carries the language tag `html` (as the store itself derives it)
yet is skipped by the composer's name-suffix fallback. -/
theorem updatePreview_no_entry_counterexample :
    updatePreview [demoCss] [] = none ∧
    updatePreview [⟨"page.HTML", "html", "<h1>hi</h1>"⟩] [] = none ∧
    getLanguageForFile "page.HTML" = "html" := by
  refine ⟨by decide, by decide, by decide⟩

/-- C3 amended: the composer's entry lookup takes the file named `index.html`
when present, else the first file in insertion order whose name ends in
`.html`; when neither exists, `updatePreview` returns without composing any
document (there is no empty-shell case). -/
theorem updatePreview_entry_cases (fs : List File) (cdns : List String) :
    (∀ f, fs.find? (fun g => g.name == "index.html") = some f →
      updatePreview fs cdns = some (assembleDoc f fs cdns)) ∧
    (fs.find? (fun g => g.name == "index.html") = none →
      ∀ f, fs.find? (fun g => jsEndsWith g.name ".html") = some f →
        updatePreview fs cdns = some (assembleDoc f fs cdns)) ∧
    (fs.find? (fun g => g.name == "index.html") = none →
      fs.find? (fun g => jsEndsWith g.name ".html") = none →
      updatePreview fs cdns = none) := by
  refine ⟨?_, ?_, ?_⟩
  · intro f h
    simp [updatePreview, h, Option.orElse]
  · intro h1 f h2
    simp [updatePreview, h1, h2, Option.orElse]
  · intro h1 h2
    simp [updatePreview, h1, h2, Option.orElse]

/-- Witness for the amended C3: on the default project the entry is the file
named `index.html` and a document is produced. -/
theorem updatePreview_entry_cases_witness :
    updatePreview demoProject [] = some (assembleDoc demoIndex demoProject []) :=
  (updatePreview_entry_cases demoProject []).1 demoIndex (by decide)

/-- The forEach accumulation from arbitrary starting accumulators: the css
component collects `content + '\n'` for the css-named files in order, the js
component collects the individually wrapped contents of the js-named files in
order. -/
theorem foldl_collectStep (fs : List File) (a b : String) :
    fs.foldl collectStep (a, b)
      = (a ++ joinAll ((cssFiles fs).map (fun f => f.content ++ "\n")),
         b ++ joinAll ((jsFiles fs).map (fun f => wrapJs f.content))) := by
  induction fs generalizing a b with
  | nil => simp [cssFiles, jsFiles, joinAll]
  | cons f t ih =>
    simp only [List.foldl_cons, collectStep, cssFiles, jsFiles, List.filter_cons]
    by_cases hcss : jsEndsWith f.name ".css" <;>
      by_cases hjs : jsEndsWith f.name ".js" <;>
        simp [hcss, hjs, ih, joinAll, cssFiles, jsFiles, String.append_assoc]

/-- Running a concatenation of wrapped blocks runs both halves in order. -/
theorem runScriptBlock_append (beh : String → FileBehavior) (l₁ l₂ : List String) :
    runScriptBlock beh (l₁ ++ l₂)
      = runScriptBlock beh l₁ ++ runScriptBlock beh l₂ := by
  induction l₁ with
  | nil => simp [runScriptBlock]
  | cons c t ih => simp [runScriptBlock, ih]

/-- C4: the composed `jsContent` is exactly the concatenation of each
javascript file's content individually wrapped in its try/catch failure
boundary, and under the semantics of that wrapping an error thrown during one
file's top-level execution is caught and reported as a single error-level
telemetry event while every subsequent file's block still executes in full. -/
theorem jsContent_failure_boundary (fs : List File) (beh : String → FileBehavior)
    (pre post : List String) (c msg : String) :
    (collectContents fs).2 = joinAll ((jsFiles fs).map (fun f => wrapJs f.content)) ∧
    ((jsFiles fs).map File.content = pre ++ c :: post →
      (beh c).thrown = some msg →
      runScriptBlock beh ((jsFiles fs).map File.content)
        = runScriptBlock beh pre ++
            ((beh c).events ++ (JsEvent.error [msg] :: runScriptBlock beh post))) := by
  constructor
  · rw [collectContents, foldl_collectStep]
    simp
  · intro heq hthrow
    rw [heq, runScriptBlock_append]
    simp [runScriptBlock, runWrapped, hthrow]

/-- Witness for C4: in the default project the single javascript file's
content, under a behaviour that makes it throw, yields exactly one error
event, and the composed `jsContent` is its individually wrapped content. -/
theorem jsContent_failure_boundary_witness :
    runScriptBlock behDemo ((jsFiles demoProject).map File.content)
      = runScriptBlock behDemo [] ++
          ((behDemo "console.log(\x27a\x27)").events ++
            (JsEvent.error ["TypeError"] :: runScriptBlock behDemo [])) :=
  (jsContent_failure_boundary demoProject behDemo [] []
      "console.log(\x27a\x27)" "TypeError").2 (by decide) (by decide)

/-- While every further notification arrives strictly within the quiet period
of the pending deadline, each notification cancels and re-arms the timer, and
the single rebuild fires one quiet period after the final notification. -/
theorem runSched_notify_aux (rest : List Nat) : ∀ t : Nat,
    List.Chain' (fun a b => a ≤ b ∧ b < a + quietPeriod) (t :: rest) →
    runSched (some (t + quietPeriod)) (rest.map SchedEvent.notify)
      = [lastTime (t :: rest) + quietPeriod] := by
  induction rest with
  | nil => intro t _; rfl
  | cons u rest ih =>
    intro t hch
    rw [List.chain'_cons] at hch
    obtain ⟨⟨hle, hlt⟩, hch2⟩ := hch
    have hnotle : ¬ (t + quietPeriod ≤ u) := by omega
    simp only [List.map_cons, runSched, if_neg hnotle]
    exact ih u hch2

/-- C5: for a nonempty sequence of `notify()` calls in which every gap between
consecutive calls is shorter than the quiet period, the scheduler fires no
rebuild before the last call and exactly one rebuild in total, exactly one
quiet period after the last call (hence no earlier than that). -/
theorem debounce_single_rebuild (ts : List Nat) (hne : ts ≠ [])
    (hch : List.Chain' (fun a b => a ≤ b ∧ b < a + quietPeriod) ts) :
    runSched none (ts.map SchedEvent.notify) = [lastTime ts + quietPeriod] ∧
    ∀ r ∈ runSched none (ts.map SchedEvent.notify), lastTime ts < r := by
  match ts, hne, hch with
  | t :: rest, _, hch =>
    have h1 : runSched none ((t :: rest).map SchedEvent.notify)
        = [lastTime (t :: rest) + quietPeriod] := by
      simp only [List.map_cons, runSched]
      exact runSched_notify_aux rest t hch
    refine ⟨h1, ?_⟩
    rw [h1]
    intro r hr
    simp only [List.mem_singleton] at hr
    subst hr
    simp [quietPeriod]

/-- Witness for C5: three notifications at 0, 500 and 900 time-units, each
gap below the 1000-unit quiet period, yield the single rebuild at 1900. -/
theorem debounce_single_rebuild_witness :
    runSched none ([0, 500, 900].map SchedEvent.notify)
      = [lastTime [0, 500, 900] + quietPeriod] ∧
    ∀ r ∈ runSched none ([0, 500, 900].map SchedEvent.notify),
      lastTime [0, 500, 900] < r :=
  debounce_single_rebuild [0, 500, 900] (by decide)
    (by norm_num [List.chain'_cons, quietPeriod])

/-- C6 counterexample: a notification at 0 arms the deadline at 1000; the
manual refresh at 500 fires immediately but does not cancel the pending
deadline, so a second, debounced rebuild still fires at 1000 even though no
further notification occurred — the rebuild list is [500, 1000], not [500]. -/
theorem forceNow_counterexample :
    runSched none [SchedEvent.notify 0, SchedEvent.force 500] = [500, 1000] ∧
    runSched none [SchedEvent.notify 0, SchedEvent.force 500] ≠ [500] := by
  refine ⟨by decide, by decide⟩

/-- C6 amended: the manual refresh fires a rebuild immediately, but it does
not cancel a pending debounce deadline: with a deadline still pending, the
forced rebuild at `t` is followed by the debounced rebuild at the untouched
deadline `d`; only from the idle state does a manual refresh produce exactly
the one immediate rebuild. -/
theorem forceNow_fires_immediately_no_cancel (d t : Nat) (h : t < d) :
    runSched (some d) [SchedEvent.force t] = [t, d] ∧
    runSched none [SchedEvent.force t] = [t] := by
  have hn : ¬ (d ≤ t) := by omega
  constructor
  · simp [runSched, if_neg hn]
  · rfl

/-- Witness for the amended C6 at deadline 1000 and refresh time 500. -/
theorem forceNow_fires_immediately_no_cancel_witness :
    runSched (some 1000) [SchedEvent.force 500] = [500, 1000] ∧
    runSched none [SchedEvent.force 500] = [500] :=
  forceNow_fires_immediately_no_cancel 1000 500 (by decide)

/-- C7: the message listener performs no staleness check — on a trace where a
message emitted by render 1 arrives after render 2 has started (so its
originating render is stale), the host still appends its line to the console
output; the final state displays both the fresh and the stale message, and
the stale message's origin 1 is below the current generation 2. -/
theorem stale_message_displayed :
    hostRun ⟨0, []⟩
        [HostEvent.render,
         HostEvent.relay 1 ⟨"console", "log", ["a"]⟩,
         HostEvent.render,
         HostEvent.relay 1 ⟨"console", "log", ["late"]⟩]
      = ⟨2, ["> a", "> late"]⟩ ∧
    "> late" ∈ (hostRun ⟨0, []⟩
        [HostEvent.render,
         HostEvent.relay 1 ⟨"console", "log", ["a"]⟩,
         HostEvent.render,
         HostEvent.relay 1 ⟨"console", "log", ["late"]⟩]).consoleLines ∧
    (1 : Nat) < 2 := by
  refine ⟨by decide, by decide, by decide⟩

/-- C9: the composer is a pure function of the snapshot and the resource
list — two invocations on equal snapshots and equal resource lists produce
identical document strings. -/
theorem updatePreview_deterministic (S₁ S₂ : List File) (R₁ R₂ : List String)
    (hS : S₁ = S₂) (hR : R₁ = R₂) :
    updatePreview S₁ R₁ = updatePreview S₂ R₂ := by
  rw [hS, hR]

/-- Witness for C9 on the default project with an empty resource list. -/
theorem updatePreview_deterministic_witness :
    updatePreview demoProject [] = updatePreview demoProject [] :=
  updatePreview_deterministic demoProject demoProject [] [] rfl rfl
